import Mathlib

/-!
Verification of the amnesia plugin (`src/plugin.py`).

The plugin is shallowly embedded: each handler becomes a pure function from
an explicit system state (the shared pending-confirmation table, the host
database collections and the local JSON store) to replies plus a new state.
Timestamps (`time.time()` values) are modelled as integers; the delayed
fire-and-forget cleanup tasks (`asyncio.create_task(delayed_cleanup())`)
run outside the synchronous handler and are not part of the step functions.
-/

namespace Amnesia


/-- A row of the host `Messages` collection: the fields the plugin reads
(`chat_id`, `message_id`, `time`). -/
structure Msg where
  chat_id : String
  message_id : String
  time : Int
deriving DecidableEq, Repr

/-- The host-owned collections the plugin deletes from.  Only `Messages`
rows carry structure the plugin inspects; the other collections are opaque
row lists.  `hasGroupInfo` models `HAS_GROUP_INFO and db.table_exists(GroupInfo)`. -/
structure Database where
  messages : List Msg
  chat_streams : List String
  person_info : List String
  hasGroupInfo : Bool
  group_info : List String
  expression : List String
  action_records : List String
  chat_history : List String
  thinking_back : List String
  jargon : List String
deriving DecidableEq, Repr

/-- A JSON value stored in `local_store.json` (opaque payloads). -/
inductive JVal where
  | str (s : String)
  | num (t : Int)
deriving DecidableEq, Repr

/-- The parsed `local_store.json` object (a JSON dict as key/value pairs). -/
abbrev Store := List (String × JVal)

/-- One entry of `AmnesiaCommand._pending_confirmations`:
`{"timestamp": time.time(), "chat_id": chat_id}`. -/
structure PendingEntry where
  timestamp : Int
  chat_id : String
deriving DecidableEq, Repr

/-- The class-level `_pending_confirmations` dict, keyed by user id,
modelled as an association list (lookup takes the first binding). -/
abbrev PendingTable := List (String × PendingEntry)

/-- The whole mutable state the plugin touches: the shared handshake table,
the database and the local store (`none` models a missing file). -/
structure SysState where
  pending : PendingTable
  db : Database
  localStore : Option Store
deriving DecidableEq, Repr

/-- Model of `AmnesiaCommand.CONFIRM_TIMEOUT = 30` seconds. -/
def CONFIRM_TIMEOUT : Int := 30

/-- Dict lookup `_pending_confirmations.get(user_id)`. -/
def ptGet (t : PendingTable) (u : String) : Option PendingEntry :=
  (t.find? (fun p => p.1 == u)).map Prod.snd

/-- Dict deletion `del _pending_confirmations[user_id]`. -/
def ptDel (t : PendingTable) (u : String) : PendingTable :=
  t.filter (fun p => p.1 != u)

/-- Dict assignment `_pending_confirmations[user_id] = entry`. -/
def ptSet (t : PendingTable) (u : String) (e : PendingEntry) : PendingTable :=
  ptDel t u ++ [(u, e)]

/-- Model of `_cleanup_expired_confirmations`: drop entries older than 300 seconds. -/
def cleanupExpired (now : Int) (t : PendingTable) : PendingTable :=
  t.filter (fun p => !(decide (now - p.2.timestamp > 300)))

/-- The outbound `send_text` calls, one constructor per call site, carrying
the numeric data interpolated into the message text. -/
inductive Reply where
  | noChatId
  | help
  | unknownSub (s : String)
  | forgetAllEmpty
  | forgetAllDone (n : Nat)
  | forgetRecentEmpty
  | forgetRecentDone (n : Nat)
  | forgetBeforeEmpty (hours : Int)
  | forgetBeforeDone (hours : Int) (n : Nat)
  | totalWarning
  | totalNoPending
  | totalExpired
  | totalWrongChat
  | totalAlreadyPending (remaining : Int)
  | totalDone (total : Nat)
  | totalFailed
deriving DecidableEq, Repr

/-- The `(bool, str, bool)` triple `AmnesiaCommand.execute` returns. -/
structure RetTriple where
  success : Bool
  info : String
  intercept : Bool
deriving DecidableEq, Repr

/-- Outcome of one `AmnesiaCommand.execute` invocation: either a normal
return, or an uncaught exception (`int()` parse failure) propagating with
the state as it was at the raise point. -/
inductive ExecOut where
  | done (replies : List Reply) (ret : RetTriple) (st : SysState)
  | uncaught (st : SysState)
deriving DecidableEq, Repr

/-- The state an invocation leaves behind, whether it returned or raised. -/
def ExecOut.state : ExecOut → SysState
  | .done _ _ st => st
  | .uncaught st => st

/-- The replies an invocation sent. -/
def ExecOut.replies : ExecOut → List Reply
  | .done rs _ _ => rs
  | .uncaught _ => []

/-- Decimal digit run accumulator for `pyInt`. -/
def pyIntDigits : List Char → Nat → Option Nat
  | [], acc => some acc
  | c :: cs, acc => if c.isDigit then pyIntDigits cs (acc * 10 + (c.toNat - 48)) else none

/-- Python `int(s)` on a stripped token: optional sign then decimal digits;
any other shape raises `ValueError` (modelled as `none`). -/
def pyInt (s : String) : Option Int :=
  match s.data with
  | [] => none
  | '-' :: rest =>
    match rest with
    | [] => none
    | _ => (pyIntDigits rest 0).map (fun n => -(n : Int))
  | cs => (pyIntDigits cs 0).map (fun n => (n : Int))

/-- The literal `"确认"` token checked by both confirmation channels. -/
def confirmToken : String := "确认"

/-- Lookup used by the state file rewrite in `_forget_total_confirmed` /
`_execute_total_amnesia`: `initial_data` keeps a fresh `deploy_time`, the
old `mmc_uuid` (default `""`), and `last_full_statistics` when present. -/
def jGet (l : Store) (k : String) : Option JVal :=
  (l.find? (fun p => p.1 == k)).map Prod.snd

/-- Build the reset `local_store.json` contents. -/
def resetStore (now : Int) (old : Store) : Store :=
  let base : Store :=
    [("deploy_time", JVal.num now), ("mmc_uuid", (jGet old "mmc_uuid").getD (JVal.str ""))]
  match jGet old "last_full_statistics" with
  | some v => base ++ [("last_full_statistics", v)]
  | none => base

/-- Result of the full-erasure body: updated collections, updated local
store, and the replies sent. -/
structure EraseOut where
  db : Database
  localStore : Option Store
  replies : List Reply
deriving DecidableEq, Repr

/-- The shared body of `AmnesiaCommand._forget_total_confirmed` and
`AmnesiaConfirmHandler._execute_total_amnesia` (the two are textual
duplicates in the source).  `ok = false` models the storage layer raising
at the first delete; the `except` clause catches it, sends the generic
failure notice and leaves the collections and the file as they were.
On success every enumerated collection is cleared (`GroupInfo` only when
the table exists), the local file is rewritten when it exists, and the
aggregate count report is sent. -/
def fullEraseCore (ok : Bool) (now : Int) (db : Database) (ls : Option Store) : EraseOut :=
  if ok then
    let total :=
      db.messages.length + db.chat_streams.length + db.person_info.length +
      (if db.hasGroupInfo then db.group_info.length else 0) +
      db.expression.length + db.action_records.length +
      db.chat_history.length + db.thinking_back.length + db.jargon.length
    let db2 : Database :=
      { messages := [], chat_streams := [], person_info := [],
        hasGroupInfo := db.hasGroupInfo,
        group_info := if db.hasGroupInfo then [] else db.group_info,
        expression := [], action_records := [], chat_history := [],
        thinking_back := [], jargon := [] }
    let ls2 := match ls with
      | none => none
      | some old => some (resetStore now old)
    ⟨db2, ls2, [Reply.totalDone total]⟩
  else
    ⟨db, ls, [Reply.totalFailed]⟩

/-- Model of `AmnesiaCommand._forget_total_confirmed` (already-confirmed erasure). -/
def forgetTotalConfirmed (ok : Bool) (now : Int) (db : Database) (ls : Option Store) :
    EraseOut :=
  fullEraseCore ok now db ls

/-- Model of `AmnesiaConfirmHandler._execute_total_amnesia`. -/
def executeTotalAmnesia (ok : Bool) (now : Int) (db : Database) (ls : Option Store) :
    EraseOut :=
  fullEraseCore ok now db ls

/-- Model of `AmnesiaCommand._forget_all`: count the chat's rows, bail out when
zero, otherwise delete them all and report the count. -/
def forgetAll (chat : String) (db : Database) : List Reply × Database :=
  let count := (db.messages.filter (fun m => m.chat_id == chat)).length
  if count == 0 then
    ([Reply.forgetAllEmpty], db)
  else
    ([Reply.forgetAllDone count],
     { db with messages := db.messages.filter (fun m => m.chat_id != chat) })

/-- Stable insertion for descending-by-time order (models
`order_by(Messages.time.desc())`: earlier-stored rows of equal time stay
first). -/
def insertTimeDesc (m : Msg) : List Msg → List Msg
  | [] => [m]
  | x :: xs => if m.time ≤ x.time then x :: insertTimeDesc m xs else m :: x :: xs

/-- Stable sort of rows by time, most recent first. -/
def sortTimeDesc : List Msg → List Msg
  | [] => []
  | x :: xs => insertTimeDesc x (sortTimeDesc xs)

/-- Model of `AmnesiaCommand._forget_recent`: select the chat's rows ordered by
time descending limited to `count`, bail out when the selection is empty,
otherwise delete the rows whose `message_id` is among the selected ids
(the delete carries no chat filter) and report how many went. -/
def forgetRecent (chat : String) (count : Int) (db : Database) : List Reply × Database :=
  let recent := (sortTimeDesc (db.messages.filter (fun m => m.chat_id == chat))).take count.toNat
  if recent.isEmpty then
    ([Reply.forgetRecentEmpty], db)
  else
    let ids := recent.map (fun m => m.message_id)
    let deleted := (db.messages.filter (fun m => ids.contains m.message_id)).length
    ([Reply.forgetRecentDone deleted],
     { db with messages := db.messages.filter (fun m => !(ids.contains m.message_id)) })

/-- Model of `AmnesiaCommand._forget_before_hours`: delete the chat's rows with
`time < now - hours*3600` (strict), reporting the count, or the
nothing-found notice when no row matches. -/
def forgetBeforeHours (chat : String) (hours : Int) (now : Int) (db : Database) :
    List Reply × Database :=
  let threshold := now - hours * 3600
  let deleted := (db.messages.filter
    (fun m => m.chat_id == chat && decide (m.time < threshold))).length
  let kept := db.messages.filter (fun m => !(m.chat_id == chat && decide (m.time < threshold)))
  if deleted == 0 then
    ([Reply.forgetBeforeEmpty hours], db)
  else
    ([Reply.forgetBeforeDone hours deleted], { db with messages := kept })

/-- Model of `AmnesiaCommand._handle_total_amnesia`: runs the 300-second sweep,
then either validates a `确认` confirmation (existence, 30-second expiry,
chat match; on success the entry is deleted and erasure runs) or handles a
fresh request (reject with remaining time while `remaining > 0`, otherwise
drop any stale entry and store a fresh one, then show the warning). -/
def handleTotalAmnesia (user chat : String) (parts : List String) (now : Int) (ok : Bool)
    (st : SysState) : List Reply × SysState :=
  let pt := cleanupExpired now st.pending
  let isConfirm := decide (parts.length > 2) && (parts.getD 2 "" == confirmToken)
  if isConfirm then
    match ptGet pt user with
    | none => ([Reply.totalNoPending], { st with pending := pt })
    | some p =>
      if now - p.timestamp > CONFIRM_TIMEOUT then
        ([Reply.totalExpired], { st with pending := ptDel pt user })
      else if p.chat_id != chat then
        ([Reply.totalWrongChat], { st with pending := pt })
      else
        let out := forgetTotalConfirmed ok now st.db st.localStore
        (out.replies,
         { pending := ptDel pt user, db := out.db, localStore := out.localStore })
  else
    match ptGet pt user with
    | some old =>
      let remaining := max 0 (CONFIRM_TIMEOUT - (now - old.timestamp))
      if remaining > 0 then
        ([Reply.totalAlreadyPending remaining], { st with pending := pt })
      else
        ([Reply.totalWarning], { st with pending := ptSet pt user ⟨now, chat⟩ })
    | none =>
      ([Reply.totalWarning], { st with pending := ptSet pt user ⟨now, chat⟩ })

/-- Model of `AmnesiaCommand.execute`: permission gate, chat-id check, then
subcommand dispatch on `parts` (the `command_text.split()` list).  A
non-numeric count/hours token makes `int()` raise; nothing catches it, so
the invocation propagates with the state untouched (`ExecOut.uncaught`). -/
def execute (perms : List String) (user : String) (chatId : Option String)
    (parts : List String) (now : Int) (ok : Bool) (st : SysState) : ExecOut :=
  if !(perms.contains user) then
    .done [] ⟨false, "没有权限", true⟩ st
  else
    match chatId with
    | none => .done [Reply.noChatId] ⟨true, "无法获取聊天ID", true⟩ st
    | some chat =>
      if parts.length == 1 then
        .done [Reply.help] ⟨true, "显示帮助", true⟩ st
      else
        let sub := parts.getD 1 ""
        if sub == "all" || sub == "全部" then
          let r := forgetAll chat st.db
          .done r.1 ⟨true, "命令执行完成", true⟩ { st with db := r.2 }
        else if sub == "total" || sub == "完全" || sub == "彻底" then
          let r := handleTotalAmnesia user chat parts now ok st
          .done r.1 ⟨true, "命令执行完成", true⟩ r.2
        else if sub == "recent" || sub == "最近" then
          match (if decide (parts.length > 2) then pyInt (parts.getD 2 "") else some 10) with
          | none => .uncaught st
          | some c =>
            let r := forgetRecent chat c st.db
            .done r.1 ⟨true, "命令执行完成", true⟩ { st with db := r.2 }
        else if sub == "before" || sub == "之前" then
          match (if decide (parts.length > 2) then pyInt (parts.getD 2 "") else some 24) with
          | none => .uncaught st
          | some h =>
            let r := forgetBeforeHours chat h now st.db
            .done r.1 ⟨true, "命令执行完成", true⟩ { st with db := r.2 }
        else if sub == "help" || sub == "帮助" then
          .done [Reply.help] ⟨true, "命令执行完成", true⟩ st
        else
          .done [Reply.unknownSub sub] ⟨true, "命令执行完成", true⟩ st

/-- Result of `AmnesiaConfirmHandler.execute`: whether the message was
intercepted (`confirmed` models `(True, False, "确认成功…")`, `pass`
models `(True, True, None)`). -/
inductive HandlerRet where
  | pass
  | confirmed
deriving DecidableEq, Repr

/-- Model of `AmnesiaConfirmHandler.execute`: a freestanding `确认` message is
checked against the shared pending table (no sweep here); expiry deletes
the entry silently, a chat mismatch or a missing entry passes the message
through untouched, and a valid confirmation consumes the entry and runs
the erasure. -/
def confirmHandlerExecute (text user chat : String) (now : Int) (ok : Bool) (st : SysState) :
    HandlerRet × List Reply × SysState :=
  if text != confirmToken then
    (.pass, [], st)
  else
    match ptGet st.pending user with
    | none => (.pass, [], st)
    | some p =>
      if now - p.timestamp > CONFIRM_TIMEOUT then
        (.pass, [], { st with pending := ptDel st.pending user })
      else if p.chat_id != chat then
        (.pass, [], st)
      else
        let out := executeTotalAmnesia ok now st.db st.localStore
        (.confirmed, out.replies,
         { pending := ptDel st.pending user, db := out.db, localStore := out.localStore })

/-- At most one binding per user id (the dict-shape invariant of
`_pending_confirmations`). -/
def ptWF (t : PendingTable) : Prop := (t.map Prod.fst).Nodup

theorem ptGet_ptDel (t : PendingTable) (u : String) : ptGet (ptDel t u) u = none := by
  induction t with
  | nil => rfl
  | cons a t ih =>
    simp only [ptDel, List.filter_cons] at ih ⊢
    by_cases h : a.1 = u
    · have hb : (a.1 != u) = false := by simp [bne, h]
      simp only [hb, Bool.false_eq_true, if_false]
      exact ih
    · have hb : (a.1 != u) = true := by simp [bne, h]
      have ha2 : (a.1 == u) = false := by simp [h]
      simp only [hb, if_true]
      simp only [ptGet, List.find?, ha2] at ih ⊢
      exact ih

theorem ptGet_filter_none (t : PendingTable) (u : String) (f : String × PendingEntry → Bool)
    (h : ptGet t u = none) : ptGet (t.filter f) u = none := by
  induction t with
  | nil => rfl
  | cons a t ih =>
    simp only [ptGet, List.find?] at h
    by_cases ha : a.1 = u
    · simp [ha] at h
    · have ha2 : (a.1 == u) = false := by simp [ha]
      rw [ha2] at h
      simp only [List.filter_cons]
      by_cases hf : f a
      · simp only [hf, if_pos rfl, ptGet, List.find?, ha2]
        exact ih h
      · simp only [hf]
        exact ih h

theorem ptGet_filter_some (t : PendingTable) (u : String) (p : PendingEntry)
    (f : String × PendingEntry → Bool)
    (h : ptGet t u = some p) (hf : f (u, p) = true) : ptGet (t.filter f) u = some p := by
  induction t with
  | nil => simp [ptGet] at h
  | cons a t ih =>
    by_cases ha : a.1 = u
    · have hfind : ptGet (a :: t) u = some a.2 := by simp [ptGet, List.find?, ha]
      have hap : a.2 = p := by rw [hfind] at h; exact Option.some.inj h
      have haeq : a = (u, p) := Prod.ext ha hap
      subst haeq
      simp only [List.filter_cons, hf, if_pos rfl]
      simp [ptGet, List.find?]
    · have ha2 : (a.1 == u) = false := by simp [ha]
      have ht : ptGet t u = some p := by
        simpa [ptGet, List.find?, ha2] using h
      simp only [List.filter_cons]
      by_cases hfa : f a
      · simp only [hfa, if_pos rfl, ptGet, List.find?, ha2]
        exact ih ht
      · simp only [hfa]
        exact ih ht

theorem ptGet_cleanup_none (t : PendingTable) (u : String) (now : Int)
    (h : ptGet t u = none) : ptGet (cleanupExpired now t) u = none :=
  ptGet_filter_none t u _ h

theorem ptGet_cleanup_some (t : PendingTable) (u : String) (p : PendingEntry) (now : Int)
    (h : ptGet t u = some p) (hkeep : now - p.timestamp ≤ 300) :
    ptGet (cleanupExpired now t) u = some p := by
  unfold cleanupExpired
  apply ptGet_filter_some t u p _ h
  simp only [Bool.not_eq_true', decide_eq_false_iff_not, not_lt]
  exact hkeep

theorem ptGet_append_of_none (t1 t2 : PendingTable) (u : String)
    (h : ptGet t1 u = none) : ptGet (t1 ++ t2) u = ptGet t2 u := by
  induction t1 with
  | nil => rfl
  | cons a t ih =>
    simp only [ptGet, List.find?] at h ⊢
    by_cases ha : a.1 = u
    · simp [ha] at h
    · have ha2 : (a.1 == u) = false := by simp [ha]
      rw [ha2] at h ⊢
      exact ih h

theorem ptGet_ptSet_self (t : PendingTable) (u : String) (e : PendingEntry) :
    ptGet (ptSet t u e) u = some e := by
  unfold ptSet
  rw [ptGet_append_of_none _ _ _ (ptGet_ptDel t u)]
  simp [ptGet, List.find?]

theorem filter_key_ptDel (t : PendingTable) (u : String) :
    (ptDel t u).filter (fun p => p.1 == u) = [] := by
  rw [List.filter_eq_nil_iff]
  intro a ha
  have := List.of_mem_filter ha
  simp only [bne_iff_ne, ne_eq] at this
  simp [this]

theorem ptSet_unique_key (t : PendingTable) (u : String) (e : PendingEntry) :
    (ptSet t u e).filter (fun p => p.1 == u) = [(u, e)] := by
  unfold ptSet
  rw [List.filter_append, filter_key_ptDel]
  simp

theorem ptWF_filter (t : PendingTable) (f : String × PendingEntry → Bool)
    (h : ptWF t) : ptWF (t.filter f) :=
  List.Nodup.sublist (List.Sublist.map Prod.fst (List.filter_sublist t)) h

theorem ptWF_ptSet (t : PendingTable) (u : String) (e : PendingEntry)
    (h : ptWF t) : ptWF (ptSet t u e) := by
  unfold ptSet ptWF
  rw [List.map_append]
  rw [List.nodup_append]
  refine ⟨ptWF_filter t _ h, by simp, ?_⟩
  intro a ha hb
  simp only [List.map_cons, List.map_nil, List.mem_singleton] at hb
  subst hb
  rcases List.mem_map.mp ha with ⟨x, hx, hxa⟩
  have hne := List.of_mem_filter hx
  simp only [bne_iff_ne, ne_eq] at hne
  exact hne hxa

theorem insertTimeDesc_perm (m : Msg) (l : List Msg) :
    List.Perm (insertTimeDesc m l) (m :: l) := by
  induction l with
  | nil => rfl
  | cons x xs ih =>
    unfold insertTimeDesc
    by_cases h : m.time ≤ x.time
    · rw [if_pos h]
      exact List.Perm.trans (List.Perm.cons x ih) (List.Perm.swap m x xs)
    · rw [if_neg h]

theorem sortTimeDesc_perm (l : List Msg) : List.Perm (sortTimeDesc l) l := by
  induction l with
  | nil => rfl
  | cons x xs ih =>
    unfold sortTimeDesc
    exact List.Perm.trans (insertTimeDesc_perm x (sortTimeDesc xs)) (List.Perm.cons x ih)

theorem handleTotal_confirm_none (user chat : String) (parts : List String) (now : Int)
    (ok : Bool) (st : SysState)
    (hc : (decide (parts.length > 2) && (parts.getD 2 "" == confirmToken)) = true)
    (hget : ptGet (cleanupExpired now st.pending) user = none) :
    handleTotalAmnesia user chat parts now ok st =
      ([Reply.totalNoPending], { st with pending := cleanupExpired now st.pending }) := by
  simp only [handleTotalAmnesia, hc, hget, if_true]

theorem handleTotal_confirm_expired (user chat : String) (parts : List String) (now : Int)
    (ok : Bool) (st : SysState) (p : PendingEntry)
    (hc : (decide (parts.length > 2) && (parts.getD 2 "" == confirmToken)) = true)
    (hget : ptGet (cleanupExpired now st.pending) user = some p)
    (hexp : now - p.timestamp > CONFIRM_TIMEOUT) :
    handleTotalAmnesia user chat parts now ok st =
      ([Reply.totalExpired], { st with pending := ptDel (cleanupExpired now st.pending) user }) := by
  simp only [handleTotalAmnesia, hc, hget, if_true]
  rw [if_pos hexp]

theorem handleTotal_confirm_wrongChat (user chat : String) (parts : List String) (now : Int)
    (ok : Bool) (st : SysState) (p : PendingEntry)
    (hc : (decide (parts.length > 2) && (parts.getD 2 "" == confirmToken)) = true)
    (hget : ptGet (cleanupExpired now st.pending) user = some p)
    (hfresh : ¬ (now - p.timestamp > CONFIRM_TIMEOUT))
    (hne : p.chat_id ≠ chat) :
    handleTotalAmnesia user chat parts now ok st =
      ([Reply.totalWrongChat], { st with pending := cleanupExpired now st.pending }) := by
  simp only [handleTotalAmnesia, hc, hget, if_true]
  rw [if_neg hfresh]
  have hb : (p.chat_id != chat) = true := by simp [bne, hne]
  rw [if_pos hb]

theorem handleTotal_confirm_valid (user chat : String) (parts : List String) (now : Int)
    (ok : Bool) (st : SysState) (p : PendingEntry)
    (hc : (decide (parts.length > 2) && (parts.getD 2 "" == confirmToken)) = true)
    (hget : ptGet (cleanupExpired now st.pending) user = some p)
    (hfresh : ¬ (now - p.timestamp > CONFIRM_TIMEOUT))
    (heq : p.chat_id = chat) :
    handleTotalAmnesia user chat parts now ok st =
      ((fullEraseCore ok now st.db st.localStore).replies,
       ⟨ptDel (cleanupExpired now st.pending) user,
        (fullEraseCore ok now st.db st.localStore).db,
        (fullEraseCore ok now st.db st.localStore).localStore⟩) := by
  simp only [handleTotalAmnesia, hc, hget, if_true]
  rw [if_neg hfresh]
  have hb : (p.chat_id != chat) = false := by simp [bne, heq]
  rw [hb]
  simp [forgetTotalConfirmed]

theorem handleTotal_request_none (user chat : String) (parts : List String) (now : Int)
    (ok : Bool) (st : SysState)
    (hc : (decide (parts.length > 2) && (parts.getD 2 "" == confirmToken)) = false)
    (hget : ptGet (cleanupExpired now st.pending) user = none) :
    handleTotalAmnesia user chat parts now ok st =
      ([Reply.totalWarning],
       { st with pending := ptSet (cleanupExpired now st.pending) user ⟨now, chat⟩ }) := by
  simp only [handleTotalAmnesia, hc, hget, Bool.false_eq_true, if_false]

theorem handleTotal_request_fresh (user chat : String) (parts : List String) (now : Int)
    (ok : Bool) (st : SysState) (p : PendingEntry)
    (hc : (decide (parts.length > 2) && (parts.getD 2 "" == confirmToken)) = false)
    (hget : ptGet (cleanupExpired now st.pending) user = some p)
    (hlt : now - p.timestamp < CONFIRM_TIMEOUT) :
    handleTotalAmnesia user chat parts now ok st =
      ([Reply.totalAlreadyPending (CONFIRM_TIMEOUT - (now - p.timestamp))],
       { st with pending := cleanupExpired now st.pending }) := by
  simp only [handleTotalAmnesia, hc, hget, Bool.false_eq_true, if_false]
  have hpos : (0 : Int) < CONFIRM_TIMEOUT - (now - p.timestamp) := by
    have : now - p.timestamp < CONFIRM_TIMEOUT := hlt
    omega
  have hmax : max 0 (CONFIRM_TIMEOUT - (now - p.timestamp)) =
      CONFIRM_TIMEOUT - (now - p.timestamp) := max_eq_right (le_of_lt hpos)
  rw [hmax, if_pos hpos]

theorem handleTotal_request_stale (user chat : String) (parts : List String) (now : Int)
    (ok : Bool) (st : SysState) (p : PendingEntry)
    (hc : (decide (parts.length > 2) && (parts.getD 2 "" == confirmToken)) = false)
    (hget : ptGet (cleanupExpired now st.pending) user = some p)
    (hge : CONFIRM_TIMEOUT ≤ now - p.timestamp) :
    handleTotalAmnesia user chat parts now ok st =
      ([Reply.totalWarning],
       { st with pending := ptSet (cleanupExpired now st.pending) user ⟨now, chat⟩ }) := by
  simp only [handleTotalAmnesia, hc, hget, Bool.false_eq_true, if_false]
  have hle : CONFIRM_TIMEOUT - (now - p.timestamp) ≤ 0 := by
    have : CONFIRM_TIMEOUT ≤ now - p.timestamp := hge
    omega
  have hmax : max 0 (CONFIRM_TIMEOUT - (now - p.timestamp)) = 0 := max_eq_left hle
  rw [hmax]
  simp

theorem handler_none (text user chat : String) (now : Int) (ok : Bool) (st : SysState)
    (htext : text = confirmToken)
    (hget : ptGet st.pending user = none) :
    confirmHandlerExecute text user chat now ok st = (.pass, [], st) := by
  subst htext
  simp only [confirmHandlerExecute, hget, bne_self_eq_false, Bool.false_eq_true, if_false]

theorem handler_expired (text user chat : String) (now : Int) (ok : Bool) (st : SysState)
    (p : PendingEntry)
    (htext : text = confirmToken)
    (hget : ptGet st.pending user = some p)
    (hexp : now - p.timestamp > CONFIRM_TIMEOUT) :
    confirmHandlerExecute text user chat now ok st =
      (.pass, [], { st with pending := ptDel st.pending user }) := by
  subst htext
  simp only [confirmHandlerExecute, hget, bne_self_eq_false, Bool.false_eq_true, if_false]
  rw [if_pos hexp]

theorem handler_wrongChat (text user chat : String) (now : Int) (ok : Bool) (st : SysState)
    (p : PendingEntry)
    (htext : text = confirmToken)
    (hget : ptGet st.pending user = some p)
    (hfresh : ¬ (now - p.timestamp > CONFIRM_TIMEOUT))
    (hne : p.chat_id ≠ chat) :
    confirmHandlerExecute text user chat now ok st = (.pass, [], st) := by
  subst htext
  simp only [confirmHandlerExecute, hget, bne_self_eq_false, Bool.false_eq_true, if_false]
  rw [if_neg hfresh]
  have hb : (p.chat_id != chat) = true := by simp [bne, hne]
  rw [if_pos hb]

theorem handler_valid (text user chat : String) (now : Int) (ok : Bool) (st : SysState)
    (p : PendingEntry)
    (htext : text = confirmToken)
    (hget : ptGet st.pending user = some p)
    (hfresh : ¬ (now - p.timestamp > CONFIRM_TIMEOUT))
    (heq : p.chat_id = chat) :
    confirmHandlerExecute text user chat now ok st =
      (.confirmed, (fullEraseCore ok now st.db st.localStore).replies,
       ⟨ptDel st.pending user,
        (fullEraseCore ok now st.db st.localStore).db,
        (fullEraseCore ok now st.db st.localStore).localStore⟩) := by
  subst htext
  simp only [confirmHandlerExecute, hget, bne_self_eq_false, Bool.false_eq_true, if_false]
  rw [if_neg hfresh]
  have hb : (p.chat_id != chat) = false := by simp [bne, heq]
  rw [hb]
  simp [executeTotalAmnesia]

theorem length_cons2_bne_one (c0 s1 : String) (rest : List String) :
    ((c0 :: s1 :: rest).length == 1) = false := by
  simp only [List.length_cons]
  rw [Bool.eq_false_iff]
  intro h
  simp only [beq_iff_eq] at h
  omega

theorem execute_total (perms : List String) (user chat c0 : String) (rest : List String)
    (now : Int) (ok : Bool) (st : SysState)
    (hperm : perms.contains user = true) :
    execute perms user (some chat) (c0 :: "total" :: rest) now ok st =
      .done (handleTotalAmnesia user chat (c0 :: "total" :: rest) now ok st).1
        ⟨true, "命令执行完成", true⟩
        (handleTotalAmnesia user chat (c0 :: "total" :: rest) now ok st).2 := by
  simp only [execute, hperm, Bool.not_true, Bool.false_eq_true, if_false,
    length_cons2_bne_one, List.getD_cons_succ, List.getD_cons_zero]
  simp

theorem execute_recent_arg (perms : List String) (user chat c0 s : String)
    (now n : Int) (ok : Bool) (st : SysState)
    (hperm : perms.contains user = true) (hparse : pyInt s = some n) :
    execute perms user (some chat) [c0, "recent", s] now ok st =
      .done (forgetRecent chat n st.db).1 ⟨true, "命令执行完成", true⟩
        { st with db := (forgetRecent chat n st.db).2 } := by
  simp only [execute, hperm, Bool.not_true, Bool.false_eq_true, if_false,
    length_cons2_bne_one, List.getD_cons_succ, List.getD_cons_zero]
  simp [hparse]

theorem execute_recent_default (perms : List String) (user chat c0 : String)
    (now : Int) (ok : Bool) (st : SysState)
    (hperm : perms.contains user = true) :
    execute perms user (some chat) [c0, "recent"] now ok st =
      .done (forgetRecent chat 10 st.db).1 ⟨true, "命令执行完成", true⟩
        { st with db := (forgetRecent chat 10 st.db).2 } := by
  simp only [execute, hperm, Bool.not_true, Bool.false_eq_true, if_false,
    length_cons2_bne_one, List.getD_cons_succ, List.getD_cons_zero]
  simp

theorem execute_recent_badParse (perms : List String) (user chat c0 s : String)
    (now : Int) (ok : Bool) (st : SysState)
    (hperm : perms.contains user = true) (hparse : pyInt s = none) :
    execute perms user (some chat) [c0, "recent", s] now ok st = .uncaught st := by
  simp only [execute, hperm, Bool.not_true, Bool.false_eq_true, if_false,
    length_cons2_bne_one, List.getD_cons_succ, List.getD_cons_zero]
  simp [hparse]

theorem execute_before_arg (perms : List String) (user chat c0 s : String)
    (now n : Int) (ok : Bool) (st : SysState)
    (hperm : perms.contains user = true) (hparse : pyInt s = some n) :
    execute perms user (some chat) [c0, "before", s] now ok st =
      .done (forgetBeforeHours chat n now st.db).1 ⟨true, "命令执行完成", true⟩
        { st with db := (forgetBeforeHours chat n now st.db).2 } := by
  simp only [execute, hperm, Bool.not_true, Bool.false_eq_true, if_false,
    length_cons2_bne_one, List.getD_cons_succ, List.getD_cons_zero]
  simp [hparse]

theorem execute_before_default (perms : List String) (user chat c0 : String)
    (now : Int) (ok : Bool) (st : SysState)
    (hperm : perms.contains user = true) :
    execute perms user (some chat) [c0, "before"] now ok st =
      .done (forgetBeforeHours chat 24 now st.db).1 ⟨true, "命令执行完成", true⟩
        { st with db := (forgetBeforeHours chat 24 now st.db).2 } := by
  simp only [execute, hperm, Bool.not_true, Bool.false_eq_true, if_false,
    length_cons2_bne_one, List.getD_cons_succ, List.getD_cons_zero]
  simp

theorem ptGet_none_of_not_mem_keys (t : PendingTable) (u : String)
    (h : u ∉ t.map Prod.fst) : ptGet t u = none := by
  unfold ptGet
  rw [List.find?_eq_none.mpr]
  · rfl
  · intro x hx hbeq
    exact h (List.mem_map.mpr ⟨x, hx, (beq_iff_eq.mp hbeq)⟩)

theorem ptGet_filter_drop (t : PendingTable) (u : String) (p : PendingEntry)
    (f : String × PendingEntry → Bool)
    (hwf : ptWF t) (h : ptGet t u = some p) (hf : f (u, p) = false) :
    ptGet (t.filter f) u = none := by
  induction t with
  | nil => simp [ptGet] at h
  | cons a t ih =>
    have hwf2 : ptWF t := (List.nodup_cons.mp hwf).2
    by_cases ha : a.1 = u
    · have hfind : ptGet (a :: t) u = some a.2 := by simp [ptGet, List.find?, ha]
      have hap : a.2 = p := by rw [hfind] at h; exact Option.some.inj h
      have haeq : a = (u, p) := Prod.ext ha hap
      subst haeq
      simp only [List.filter_cons, hf, Bool.false_eq_true, if_false]
      have hnk : u ∉ t.map Prod.fst := by
        have := (List.nodup_cons.mp hwf).1
        simpa using this
      exact ptGet_filter_none t u f (ptGet_none_of_not_mem_keys t u hnk)
    · have ha2 : (a.1 == u) = false := by simp [ha]
      have ht : ptGet t u = some p := by
        simp only [ptGet, List.find?, ha2] at h
        exact h
      simp only [List.filter_cons]
      by_cases hfa : f a
      · simp only [hfa, if_pos rfl]
        simp only [ptGet, List.find?, ha2]
        exact ih hwf2 ht
      · simp only [hfa]
        exact ih hwf2 ht

theorem cleanup_drops_over300 (t : PendingTable) (u : String) (p : PendingEntry) (now : Int)
    (hwf : ptWF t) (h : ptGet t u = some p) (hold : now - p.timestamp > 300) :
    ptGet (cleanupExpired now t) u = none := by
  unfold cleanupExpired
  apply ptGet_filter_drop t u p _ hwf h
  simp [hold]

theorem handleTotal_pending_shape (user chat : String) (parts : List String) (now : Int)
    (ok : Bool) (st : SysState) :
    (handleTotalAmnesia user chat parts now ok st).2.pending = cleanupExpired now st.pending ∨
    (handleTotalAmnesia user chat parts now ok st).2.pending =
      ptDel (cleanupExpired now st.pending) user ∨
    (handleTotalAmnesia user chat parts now ok st).2.pending =
      ptSet (cleanupExpired now st.pending) user ⟨now, chat⟩ := by
  simp only [handleTotalAmnesia]
  split
  · split
    · simp
    · split
      · simp
      · split
        · simp
        · simp
  · split
    · split
      · simp
      · simp
    · simp

theorem ptWF_cleanup (t : PendingTable) (now : Int) (h : ptWF t) :
    ptWF (cleanupExpired now t) := ptWF_filter t _ h

theorem ptWF_ptDel (t : PendingTable) (u : String) (h : ptWF t) : ptWF (ptDel t u) :=
  ptWF_filter t _ h

theorem ptWF_handleTotal (user chat : String) (parts : List String) (now : Int)
    (ok : Bool) (st : SysState) (h : ptWF st.pending) :
    ptWF (handleTotalAmnesia user chat parts now ok st).2.pending := by
  rcases handleTotal_pending_shape user chat parts now ok st with hs | hs | hs <;> rw [hs]
  · exact ptWF_cleanup _ _ h
  · exact ptWF_ptDel _ _ (ptWF_cleanup _ _ h)
  · exact ptWF_ptSet _ _ _ (ptWF_cleanup _ _ h)

theorem execute_pending_shape (perms : List String) (user : String) (chatId : Option String)
    (parts : List String) (now : Int) (ok : Bool) (st : SysState) :
    ((execute perms user chatId parts now ok st).state).pending = st.pending ∨
    ∃ chat, chatId = some chat ∧
      ((execute perms user chatId parts now ok st).state).pending =
        (handleTotalAmnesia user chat parts now ok st).2.pending := by
  unfold execute
  split
  · simp [ExecOut.state]
  · cases chatId with
    | none => simp [ExecOut.state]
    | some chat =>
      simp only
      split
      · simp [ExecOut.state]
      · split
        · simp [ExecOut.state]
        · split
          · right
            exact ⟨chat, rfl, rfl⟩
          · split
            · split
              · simp [ExecOut.state]
              · simp [ExecOut.state]
            · split
              · split
                · simp [ExecOut.state]
                · simp [ExecOut.state]
              · split
                · simp [ExecOut.state]
                · simp [ExecOut.state]

theorem ptWF_execute (perms : List String) (user : String) (chatId : Option String)
    (parts : List String) (now : Int) (ok : Bool) (st : SysState) (h : ptWF st.pending) :
    ptWF ((execute perms user chatId parts now ok st).state).pending := by
  rcases execute_pending_shape perms user chatId parts now ok st with hs | ⟨chat, _, hs⟩ <;>
    rw [hs]
  · exact h
  · exact ptWF_handleTotal user chat parts now ok st h

theorem handler_pending_shape (text user chat : String) (now : Int) (ok : Bool)
    (st : SysState) :
    ((confirmHandlerExecute text user chat now ok st).2.2).pending = st.pending ∨
    ((confirmHandlerExecute text user chat now ok st).2.2).pending =
      ptDel st.pending user := by
  unfold confirmHandlerExecute
  split
  · simp
  · split
    · simp
    · split
      · simp
      · split
        · simp
        · simp

theorem ptWF_handler (text user chat : String) (now : Int) (ok : Bool) (st : SysState)
    (h : ptWF st.pending) :
    ptWF ((confirmHandlerExecute text user chat now ok st).2.2).pending := by
  rcases handler_pending_shape text user chat now ok st with hs | hs <;> rw [hs]
  · exact h
  · exact ptWF_ptDel _ _ h

theorem confirm_parts_hc (c0 : String) :
    (decide (([c0, "total", "确认"] : List String).length > 2) &&
      (([c0, "total", "确认"] : List String).getD 2 "" == confirmToken)) = true := by
  simp [confirmToken]

theorem request_parts_hc (c0 : String) :
    (decide (([c0, "total"] : List String).length > 2) &&
      (([c0, "total"] : List String).getD 2 "" == confirmToken)) = false := by
  simp

theorem forgetBeforeHours_messages (chat : String) (hours now : Int) (db : Database) :
    ((forgetBeforeHours chat hours now db).2).messages =
      db.messages.filter
        (fun m => !(m.chat_id == chat && decide (m.time < now - hours * 3600))) := by
  simp only [forgetBeforeHours]
  split
  next h =>
    simp only [beq_iff_eq, List.length_eq_zero] at h
    have hall := List.filter_eq_nil_iff.mp h
    symm
    rw [List.filter_eq_self]
    intro a ha
    simp only [Bool.not_eq_true']
    exact Bool.not_eq_true _ |>.mp (hall a ha)
  next h =>
    rfl

theorem forgetRecent_few (chat : String) (n : Int) (db : Database)
    (hnodup : (db.messages.map (fun m => m.message_id)).Nodup)
    (hne : db.messages.filter (fun m => m.chat_id == chat) ≠ [])
    (hlt : ((db.messages.filter (fun m => m.chat_id == chat)).length : Int) < n) :
    forgetRecent chat n db =
      ([Reply.forgetRecentDone (db.messages.filter (fun m => m.chat_id == chat)).length],
       { db with messages := db.messages.filter (fun m => m.chat_id != chat) }) := by
  have hp := sortTimeDesc_perm (db.messages.filter (fun m => m.chat_id == chat))
  have hlen : (sortTimeDesc (db.messages.filter (fun m => m.chat_id == chat))).length =
      (db.messages.filter (fun m => m.chat_id == chat)).length := hp.length_eq
  have htake : (sortTimeDesc (db.messages.filter (fun m => m.chat_id == chat))).take n.toNat =
      sortTimeDesc (db.messages.filter (fun m => m.chat_id == chat)) := by
    apply List.take_of_length_le
    rw [hlen]
    omega
  have hsne : sortTimeDesc (db.messages.filter (fun m => m.chat_id == chat)) ≠ [] := by
    intro h
    apply hne
    have := hp
    rw [h] at this
    exact this.symm.eq_nil
  have hemp : (sortTimeDesc (db.messages.filter (fun m => m.chat_id == chat))).isEmpty
      = false := by
    simp [List.isEmpty_iff, hsne]
  have hids : ∀ m ∈ db.messages,
      (((sortTimeDesc (db.messages.filter (fun q => q.chat_id == chat))).map
        (fun x => x.message_id)).contains m.message_id) = (m.chat_id == chat) := by
    intro m hm
    by_cases hmc : (m.chat_id == chat) = true
    · rw [hmc]
      have hmcm : m ∈ db.messages.filter (fun q => q.chat_id == chat) :=
        List.mem_filter.mpr ⟨hm, hmc⟩
      have hmsrt : m ∈ sortTimeDesc (db.messages.filter (fun q => q.chat_id == chat)) :=
        hp.mem_iff.mpr hmcm
      exact List.elem_eq_true_of_mem (List.mem_map.mpr ⟨m, hmsrt, rfl⟩)
    · rw [Bool.not_eq_true] at hmc
      rw [hmc]
      rw [Bool.eq_false_iff]
      intro hcon
      obtain ⟨x, hxsrt, hxid⟩ := List.mem_map.mp (List.mem_of_elem_eq_true hcon)
      have hxcm : x ∈ db.messages.filter (fun q => q.chat_id == chat) :=
        hp.mem_iff.mp hxsrt
      have hxdb : x ∈ db.messages := (List.mem_filter.mp hxcm).1
      have hxchat : (x.chat_id == chat) = true := (List.mem_filter.mp hxcm).2
      have hxm : x = m := List.inj_on_of_nodup_map hnodup hxdb hm hxid
      rw [hxm] at hxchat
      rw [hmc] at hxchat
      exact Bool.false_ne_true hxchat
  have hfil1 : db.messages.filter (fun m =>
      ((sortTimeDesc (db.messages.filter (fun q => q.chat_id == chat))).map
        (fun x => x.message_id)).contains m.message_id) =
      db.messages.filter (fun m => m.chat_id == chat) :=
    List.filter_congr hids
  have hfil2 : db.messages.filter (fun m =>
      !(((sortTimeDesc (db.messages.filter (fun q => q.chat_id == chat))).map
        (fun x => x.message_id)).contains m.message_id)) =
      db.messages.filter (fun m => m.chat_id != chat) := by
    apply List.filter_congr
    intro a ha
    rw [hids a ha]
    rfl
  simp only [forgetRecent]
  rw [htake, hemp]
  simp only [Bool.false_eq_true, if_false]
  rw [hfil1, hfil2]

theorem execute_before_badParse (perms : List String) (user chat c0 s : String)
    (now : Int) (ok : Bool) (st : SysState)
    (hperm : perms.contains user = true) (hparse : pyInt s = none) :
    execute perms user (some chat) [c0, "before", s] now ok st = .uncaught st := by
  simp only [execute, hperm, Bool.not_true, Bool.false_eq_true, if_false,
    length_cons2_bne_one, List.getD_cons_succ, List.getD_cons_zero]
  simp [hparse]

/-- A small concrete database: one message in chat `c`. -/
def sampleDb : Database :=
  ⟨[⟨"c", "m1", 5⟩], [], [], true, [], [], [], [], [], []⟩

/-- A state with one pending entry for user `1` made at time 0 in chat `c`. -/
def samplePending : SysState := ⟨[("1", ⟨0, "c"⟩)], sampleDb, none⟩

/-- A state whose chat `c` holds no rows while chat `d` holds one. -/
def emptyChatSt : SysState :=
  ⟨[], ⟨[⟨"d", "m9", 1⟩], [], [], true, [], [], [], [], [], []⟩, none⟩

/-- Rows around the `before 24` threshold for `now = 100000`
(threshold `13600`): one strictly below, one exactly at it, one in
another chat. -/
def sampleBeforeSt : SysState :=
  ⟨[], ⟨[⟨"c", "a", 13599⟩, ⟨"c", "b", 13600⟩, ⟨"d", "e", 0⟩],
    [], [], true, [], [], [], [], [], []⟩, none⟩

/-- Claim C2: for a requester whose id is not in the configured allow-list,
`AmnesiaCommand.execute` rejects every subcommand with the no-permission
return, sends nothing, creates or mutates no handshake state and deletes no
stored rows: the entire state comes back unchanged. -/
theorem permission_gate_rejects_unchanged (perms : List String) (user : String)
    (chatId : Option String) (parts : List String) (now : Int) (ok : Bool) (st : SysState)
    (hperm : perms.contains user = false) :
    execute perms user chatId parts now ok st = .done [] ⟨false, "没有权限", true⟩ st := by
  unfold execute
  rw [hperm]
  rfl

theorem permission_gate_rejects_unchanged_witness :
    (["1334431750"].contains "999") = false ∧
    execute ["1334431750"] "999" (some "c") ["/amnesia", "all"] 0 true samplePending =
      .done [] ⟨false, "没有权限", true⟩ samplePending :=
  ⟨by decide, permission_gate_rejects_unchanged _ _ _ _ _ _ _ (by decide)⟩

/-- Claim C9: for an authorized requester, a non-numeric numeric-argument
token (`recent abc`, `before xyz`) makes the modelled `int()` conversion
fail; nothing in `execute` catches it, so the invocation propagates as an
uncaught parse failure with the state — every stored row included —
unchanged. -/
theorem non_numeric_arg_uncaught :
    execute ["1"] "1" (some "c") ["/amnesia", "recent", "abc"] 0 true samplePending =
      .uncaught samplePending ∧
    execute ["1"] "1" (some "c") ["/amnesia", "before", "xyz"] 0 true samplePending =
      .uncaught samplePending := by
  constructor
  · decide
  · decide

/-- Claim C8: after a successful full erasure through either code path, a
local store file that existed beforehand holds exactly the reset fields
`deploy_time` and `mmc_uuid` plus the old `last_full_statistics` value if
and only if the old data had that key, and no other keys. -/
theorem local_store_reset_exact_keys (now : Int) (db : Database) (old : Store) :
    (forgetTotalConfirmed true now db (some old)).localStore = some (resetStore now old) ∧
    (executeTotalAmnesia true now db (some old)).localStore = some (resetStore now old) ∧
    (resetStore now old).map Prod.fst =
      (if (jGet old "last_full_statistics").isSome then
        ["deploy_time", "mmc_uuid", "last_full_statistics"]
      else ["deploy_time", "mmc_uuid"]) ∧
    jGet (resetStore now old) "last_full_statistics" = jGet old "last_full_statistics" ∧
    jGet (resetStore now old) "mmc_uuid" = some ((jGet old "mmc_uuid").getD (JVal.str "")) := by
  refine ⟨?_, ?_, ?_, ?_, ?_⟩
  · simp [forgetTotalConfirmed, fullEraseCore]
  · simp [executeTotalAmnesia, fullEraseCore]
  · cases h : jGet old "last_full_statistics" with
    | none => simp only [resetStore, h]; simp [h]
    | some v => simp only [resetStore, h]; simp [h]
  · cases h : jGet old "last_full_statistics" with
    | none => simp only [resetStore, h]; simp [jGet, List.find?, h]
    | some v => simp only [resetStore, h]; simp [jGet, List.find?, h]
  · cases h : jGet old "last_full_statistics" with
    | none => simp only [resetStore, h]; simp [jGet, List.find?]
    | some v => simp only [resetStore, h]; simp [jGet, List.find?]

/-- Claim C6: the erase-older-than-H-hours subcommand (H = 24 when no
numeric token is given) deletes exactly the target conversation's rows
with time strictly below `now − H·3600`; a row exactly at the threshold is
kept, and rows of other conversations are kept. -/
theorem before_hours_strict_threshold (perms : List String) (user chat c0 s : String)
    (now hrs : Int) (ok : Bool) (st : SysState)
    (hperm : perms.contains user = true) (hs : pyInt s = some hrs) :
    ((execute perms user (some chat) [c0, "before", s] now ok st).state).db.messages =
      st.db.messages.filter
        (fun m => !(m.chat_id == chat && decide (m.time < now - hrs * 3600))) ∧
    (∀ m ∈ st.db.messages, m.time = now - hrs * 3600 →
      m ∈ ((execute perms user (some chat) [c0, "before", s] now ok st).state).db.messages) ∧
    (∀ m ∈ st.db.messages, m.chat_id ≠ chat →
      m ∈ ((execute perms user (some chat) [c0, "before", s] now ok st).state).db.messages) ∧
    ((execute perms user (some chat) [c0, "before"] now ok st).state).db.messages =
      st.db.messages.filter
        (fun m => !(m.chat_id == chat && decide (m.time < now - 24 * 3600))) := by
  have h1 : ((execute perms user (some chat) [c0, "before", s] now ok st).state).db.messages =
      st.db.messages.filter
        (fun m => !(m.chat_id == chat && decide (m.time < now - hrs * 3600))) := by
    rw [execute_before_arg perms user chat c0 s now hrs ok st hperm hs]
    exact forgetBeforeHours_messages chat hrs now st.db
  refine ⟨h1, ?_, ?_, ?_⟩
  · intro m hm ht
    rw [h1]
    refine List.mem_filter.mpr ⟨hm, ?_⟩
    simp [ht]
  · intro m hm hc2
    rw [h1]
    refine List.mem_filter.mpr ⟨hm, ?_⟩
    simp [hc2]
  · rw [execute_before_default perms user chat c0 now ok st hperm]
    exact forgetBeforeHours_messages chat 24 now st.db

theorem before_hours_strict_threshold_witness :
    pyInt "24" = some 24 ∧
    ((execute ["1"] "1" (some "c") ["/amnesia", "before", "24"] 100000 true
        sampleBeforeSt).state).db.messages =
      sampleBeforeSt.db.messages.filter
        (fun m => !(m.chat_id == "c" && decide (m.time < 100000 - 24 * 3600))) :=
  ⟨by decide,
   (before_hours_strict_threshold ["1"] "1" "c" "/amnesia" "24" 100000 24 true
      sampleBeforeSt (by decide) (by decide)).1⟩

/-- Claim C7 as stated fails at a conversation with zero rows: the reply is
the nothing-found notice, which carries no removed-row count (in
particular it is not the count-reporting reply with count 0). -/
theorem recent_zero_rows_reports_no_count :
    execute ["1"] "1" (some "c") ["/amnesia", "recent"] 0 true emptyChatSt =
      .done [Reply.forgetRecentEmpty] ⟨true, "命令执行完成", true⟩ emptyChatSt ∧
    [Reply.forgetRecentEmpty] ≠ [Reply.forgetRecentDone 0] :=
  ⟨rfl, by decide⟩

/-- Claim C7 (amended): erase-most-recent-N (default N = 10) on a
conversation holding a positive number k < N of rows (message ids globally
distinct) deletes exactly those k rows and reports k in the outbound
message; with zero rows it deletes nothing and sends the nothing-found
notice, which reports no count. -/
theorem recent_fewer_rows_deletes_all (perms : List String) (user chat c0 s : String)
    (now cnt : Int) (ok : Bool) (st : SysState)
    (hperm : perms.contains user = true) (hs : pyInt s = some cnt)
    (hnodup : (st.db.messages.map (fun m => m.message_id)).Nodup)
    (hne : st.db.messages.filter (fun m => m.chat_id == chat) ≠ [])
    (hlt : ((st.db.messages.filter (fun m => m.chat_id == chat)).length : Int) < cnt) :
    execute perms user (some chat) [c0, "recent", s] now ok st =
      .done [Reply.forgetRecentDone
          (st.db.messages.filter (fun m => m.chat_id == chat)).length]
        ⟨true, "命令执行完成", true⟩
        { st with db := { st.db with messages := st.db.messages.filter (fun m => m.chat_id != chat) } } ∧
    (((st.db.messages.filter (fun m => m.chat_id == chat)).length : Int) < 10 →
      execute perms user (some chat) [c0, "recent"] now ok st =
        .done [Reply.forgetRecentDone
            (st.db.messages.filter (fun m => m.chat_id == chat)).length]
          ⟨true, "命令执行完成", true⟩
          { st with db := { st.db with messages := st.db.messages.filter (fun m => m.chat_id != chat) } }) := by
  constructor
  · rw [execute_recent_arg perms user chat c0 s now cnt ok st hperm hs]
    rw [forgetRecent_few chat cnt st.db hnodup hne hlt]
  · intro h10
    rw [execute_recent_default perms user chat c0 now ok st hperm]
    rw [forgetRecent_few chat 10 st.db hnodup hne h10]

theorem recent_fewer_rows_deletes_all_witness :
    pyInt "5" = some 5 ∧
    execute ["1"] "1" (some "c") ["/amnesia", "recent", "5"] 0 true samplePending =
      .done [Reply.forgetRecentDone 1] ⟨true, "命令执行完成", true⟩
        ⟨[("1", ⟨0, "c"⟩)], ⟨[], [], [], true, [], [], [], [], [], []⟩, none⟩ := by
  constructor
  · decide
  · have h := (recent_fewer_rows_deletes_all ["1"] "1" "c" "/amnesia" "5" 0 5 true
      samplePending (by decide) (by decide) (by decide) (by decide) (by decide)).1
    exact h

/-- Claim C5 as stated fails at the timeout boundary: an entry of age
exactly 30 is still accepted by the confirmation validation (so it is not
expired — first conjunct: the confirm at the same instant runs the
erasure), yet a full-erase request at that instant is not rejected with
remaining-time feedback: it answers with the fresh warning and replaces
the entry with a new one stamped at time 30. -/
theorem request_at_boundary_replaces_entry :
    (execute ["1"] "1" (some "c") ["/amnesia", "total", "确认"] 30 true samplePending).replies =
      [Reply.totalDone 1] ∧
    execute ["1"] "1" (some "c") ["/amnesia", "total"] 30 true samplePending =
      .done [Reply.totalWarning] ⟨true, "命令执行完成", true⟩
        ⟨[("1", ⟨30, "c"⟩)], sampleDb, none⟩ := by
  constructor
  · decide
  · decide

/-- Claim C5 (amended): the handshake table keeps at most one pending
entry per requester — the key-uniqueness invariant `ptWF` is preserved by
every `AmnesiaCommand.execute` invocation and by the confirm listener —
and in `_handle_total_amnesia` a full-erase request finding the
requester's entry at age strictly below the 30-second timeout is rejected
with the remaining time, keeping that entry, while a request at age 30 or
more (the request path replaces already at exactly 30, though the confirm
path would still accept that entry) drops the old entry and stores
exactly one fresh entry stamped with the request's time and chat. -/
theorem single_pending_per_requester (perms : List String) (user : String)
    (chatId : Option String) (parts : List String) (text uh ch : String)
    (now : Int) (ok : Bool) (st : SysState)
    (hwf : ptWF st.pending) :
    ptWF ((execute perms user chatId parts now ok st).state).pending ∧
    ptWF ((confirmHandlerExecute text uh ch now ok st).2.2).pending ∧
    (∀ u c parts2 now2 ok2 p,
      (decide (parts2.length > 2) && (parts2.getD 2 "" == confirmToken)) = false →
      ptGet st.pending u = some p →
      now2 - p.timestamp < CONFIRM_TIMEOUT →
      handleTotalAmnesia u c parts2 now2 ok2 st =
        ([Reply.totalAlreadyPending (CONFIRM_TIMEOUT - (now2 - p.timestamp))],
         { st with pending := cleanupExpired now2 st.pending }) ∧
      ptGet (cleanupExpired now2 st.pending) u = some p) ∧
    (∀ u c parts2 now2 ok2 p,
      (decide (parts2.length > 2) && (parts2.getD 2 "" == confirmToken)) = false →
      ptGet st.pending u = some p →
      CONFIRM_TIMEOUT ≤ now2 - p.timestamp →
      handleTotalAmnesia u c parts2 now2 ok2 st =
        ([Reply.totalWarning],
         { st with pending := ptSet (cleanupExpired now2 st.pending) u ⟨now2, c⟩ }) ∧
      ptGet (ptSet (cleanupExpired now2 st.pending) u ⟨now2, c⟩) u = some ⟨now2, c⟩ ∧
      (ptSet (cleanupExpired now2 st.pending) u ⟨now2, c⟩).filter
        (fun q => q.1 == u) = [(u, ⟨now2, c⟩)]) := by
  refine ⟨ptWF_execute _ _ _ _ _ _ _ hwf, ptWF_handler _ _ _ _ _ _ hwf, ?_, ?_⟩
  · intro u c parts2 now2 ok2 p hc hget hfresh
    have h30 : now2 - p.timestamp < 30 := hfresh
    have hkeep : now2 - p.timestamp ≤ 300 := by omega
    have hgetc := ptGet_cleanup_some st.pending u p now2 hget hkeep
    exact ⟨handleTotal_request_fresh u c parts2 now2 ok2 st p hc hgetc hfresh, hgetc⟩
  · intro u c parts2 now2 ok2 p hc hget hge
    refine ⟨?_, ptGet_ptSet_self _ _ _, ptSet_unique_key _ _ _⟩
    by_cases hkeep : now2 - p.timestamp ≤ 300
    · have hgetc := ptGet_cleanup_some st.pending u p now2 hget hkeep
      exact handleTotal_request_stale u c parts2 now2 ok2 st p hc hgetc hge
    · have hover : now2 - p.timestamp > 300 := by omega
      have hdrop := cleanup_drops_over300 st.pending u p now2 hwf hget hover
      exact handleTotal_request_none u c parts2 now2 ok2 st hc hdrop

theorem single_pending_per_requester_witness :
    ptWF samplePending.pending ∧
    ptWF ((execute ["1"] "1" (some "c") ["/amnesia", "total"] 30 true
      samplePending).state).pending :=
  ⟨by unfold ptWF; decide,
   (single_pending_per_requester ["1"] "1" (some "c") ["/amnesia", "total"] "确认" "1" "c"
      30 true samplePending (by unfold ptWF; decide)).1⟩

/-- Claim C1: a confirmation passing every validation check — through the
second command token or the freestanding confirm message — deletes the
requester's pending entry (the erasure outcome `ok` is irrelevant: the
`del` precedes the erasure call), so any second confirmation attempt
through either channel at any later time finds no pending entry: the
command channel answers the no-pending rejection, the listener passes the
message through untouched. -/
theorem confirm_single_consumption (perms : List String) (user chat chat2 c0 c1 : String)
    (now now2 : Int) (ok ok2 : Bool) (st : SysState) (p : PendingEntry)
    (hperm : perms.contains user = true)
    (hget : ptGet st.pending user = some p)
    (hfresh : now - p.timestamp ≤ CONFIRM_TIMEOUT)
    (hchat : p.chat_id = chat) :
    (ptGet ((execute perms user (some chat) [c0, "total", "确认"] now ok st).state).pending
        user = none ∧
     (execute perms user (some chat) [c0, "total", "确认"] now ok st).replies =
       (fullEraseCore ok now st.db st.localStore).replies ∧
     ((execute perms user (some chat) [c0, "total", "确认"] now ok st).state).db =
       (fullEraseCore ok now st.db st.localStore).db ∧
     (execute perms user (some chat2) [c1, "total", "确认"] now2 ok2
         ((execute perms user (some chat) [c0, "total", "确认"] now ok st).state)).replies =
       [Reply.totalNoPending] ∧
     confirmHandlerExecute "确认" user chat2 now2 ok2
         ((execute perms user (some chat) [c0, "total", "确认"] now ok st).state) =
       (.pass, [], ((execute perms user (some chat) [c0, "total", "确认"] now ok st).state))) ∧
    ((confirmHandlerExecute "确认" user chat now ok st).1 = .confirmed ∧
     ptGet ((confirmHandlerExecute "确认" user chat now ok st).2.2).pending user = none ∧
     (execute perms user (some chat2) [c1, "total", "确认"] now2 ok2
         ((confirmHandlerExecute "确认" user chat now ok st).2.2)).replies =
       [Reply.totalNoPending] ∧
     confirmHandlerExecute "确认" user chat2 now2 ok2
         ((confirmHandlerExecute "确认" user chat now ok st).2.2) =
       (.pass, [], ((confirmHandlerExecute "确认" user chat now ok st).2.2))) := by
  have hfreshNot : ¬ (now - p.timestamp > CONFIRM_TIMEOUT) := not_lt.mpr hfresh
  have hkeep : now - p.timestamp ≤ 300 := by
    have h30 : now - p.timestamp ≤ 30 := hfresh
    omega
  have hgetc := ptGet_cleanup_some st.pending user p now hget hkeep
  have he1 := execute_total perms user chat c0 ["确认"] now ok st hperm
  have hh1 := handleTotal_confirm_valid user chat [c0, "total", "确认"] now ok st p
    (confirm_parts_hc c0) hgetc hfreshNot hchat
  have hst1 : (execute perms user (some chat) [c0, "total", "确认"] now ok st).state =
      ⟨ptDel (cleanupExpired now st.pending) user,
       (fullEraseCore ok now st.db st.localStore).db,
       (fullEraseCore ok now st.db st.localStore).localStore⟩ := by
    rw [he1, hh1]
    rfl
  have hrep1 : (execute perms user (some chat) [c0, "total", "确认"] now ok st).replies =
      (fullEraseCore ok now st.db st.localStore).replies := by
    rw [he1, hh1]
    rfl
  have hnone1 : ptGet ((execute perms user (some chat) [c0, "total", "确认"] now ok st).state).pending
      user = none := by
    rw [hst1]
    exact ptGet_ptDel _ _
  have hnone1c : ∀ n3 : Int,
      ptGet (cleanupExpired n3 ((execute perms user (some chat)
        [c0, "total", "确认"] now ok st).state).pending) user = none :=
    fun n3 => ptGet_cleanup_none _ _ n3 hnone1
  constructor
  · refine ⟨hnone1, hrep1, by rw [hst1], ?_, ?_⟩
    · rw [execute_total perms user chat2 c1 ["确认"] now2 ok2 _ hperm,
        handleTotal_confirm_none user chat2 [c1, "total", "确认"] now2 ok2 _
          (confirm_parts_hc c1) (hnone1c now2)]
      rfl
    · exact handler_none "确认" user chat2 now2 ok2 _ rfl hnone1
  · have hv := handler_valid "确认" user chat now ok st p rfl hget hfreshNot hchat
    have hst2 : (confirmHandlerExecute "确认" user chat now ok st).2.2 =
        ⟨ptDel st.pending user,
         (fullEraseCore ok now st.db st.localStore).db,
         (fullEraseCore ok now st.db st.localStore).localStore⟩ := by
      rw [hv]
    have hnone2 : ptGet ((confirmHandlerExecute "确认" user chat now ok st).2.2).pending
        user = none := by
      rw [hst2]
      exact ptGet_ptDel _ _
    refine ⟨by rw [hv], hnone2, ?_, ?_⟩
    · rw [execute_total perms user chat2 c1 ["确认"] now2 ok2 _ hperm,
        handleTotal_confirm_none user chat2 [c1, "total", "确认"] now2 ok2 _
          (confirm_parts_hc c1) (ptGet_cleanup_none _ _ now2 hnone2)]
      rfl
    · exact handler_none "确认" user chat2 now2 ok2 _ rfl hnone2

theorem confirm_single_consumption_witness :
    ptGet ((execute ["1"] "1" (some "c") ["/amnesia", "total", "确认"] 10 true
      samplePending).state).pending "1" = none ∧
    (execute ["1"] "1" (some "c") ["/amnesia", "total", "确认"] 20 false
      ((execute ["1"] "1" (some "c") ["/amnesia", "total", "确认"] 10 true
        samplePending).state)).replies = [Reply.totalNoPending] :=
  have h := confirm_single_consumption ["1"] "1" "c" "c" "/amnesia" "/amnesia" 10 20
    true false samplePending ⟨0, "c"⟩ (by decide) (by decide) (by decide) (by decide)
  ⟨h.1.1, h.1.2.2.2.1⟩

/-- Claim C3: a confirmation finding the requester's pending entry older
than the 30-second window — through either channel — is rejected without
touching the collections or the file, and the stale entry is dropped (by
the expiry branch, or already by the 300-second sweep on the command
path), so a subsequent fresh full-erase request by the same requester
stores a new pending entry and succeeds with the warning. -/
theorem expired_confirm_drops_entry (perms : List String) (user chat chatF c0 c1 : String)
    (now now2 : Int) (ok ok2 : Bool) (st : SysState) (p : PendingEntry)
    (hwf : ptWF st.pending)
    (hperm : perms.contains user = true)
    (hget : ptGet st.pending user = some p)
    (hstale : now - p.timestamp > CONFIRM_TIMEOUT) :
    (ptGet ((execute perms user (some chat) [c0, "total", "确认"] now ok st).state).pending
        user = none ∧
     ((execute perms user (some chat) [c0, "total", "确认"] now ok st).state).db = st.db ∧
     ((execute perms user (some chat) [c0, "total", "确认"] now ok st).state).localStore =
       st.localStore ∧
     ((execute perms user (some chat) [c0, "total", "确认"] now ok st).replies =
        [Reply.totalExpired] ∨
      (execute perms user (some chat) [c0, "total", "确认"] now ok st).replies =
        [Reply.totalNoPending]) ∧
     (execute perms user (some chatF) [c1, "total"] now2 ok2
        ((execute perms user (some chat) [c0, "total", "确认"] now ok st).state)).replies =
       [Reply.totalWarning] ∧
     ptGet ((execute perms user (some chatF) [c1, "total"] now2 ok2
        ((execute perms user (some chat) [c0, "total", "确认"] now ok st).state)).state).pending
       user = some ⟨now2, chatF⟩) ∧
    (confirmHandlerExecute "确认" user chat now ok st =
       (.pass, [], { st with pending := ptDel st.pending user }) ∧
     (execute perms user (some chatF) [c1, "total"] now2 ok2
        { st with pending := ptDel st.pending user }).replies = [Reply.totalWarning] ∧
     ptGet ((execute perms user (some chatF) [c1, "total"] now2 ok2
        { st with pending := ptDel st.pending user }).state).pending user =
       some ⟨now2, chatF⟩) := by
  have hfollow : ∀ st1 : SysState, ptGet st1.pending user = none →
      (execute perms user (some chatF) [c1, "total"] now2 ok2 st1).replies =
        [Reply.totalWarning] ∧
      ptGet ((execute perms user (some chatF) [c1, "total"] now2 ok2 st1).state).pending
        user = some ⟨now2, chatF⟩ := by
    intro st1 hn
    have hreq := handleTotal_request_none user chatF [c1, "total"] now2 ok2 st1
      (request_parts_hc c1) (ptGet_cleanup_none _ _ now2 hn)
    constructor
    · rw [execute_total perms user chatF c1 [] now2 ok2 st1 hperm, hreq]
      rfl
    · rw [execute_total perms user chatF c1 [] now2 ok2 st1 hperm, hreq]
      exact ptGet_ptSet_self _ _ _
  constructor
  · by_cases hk : now - p.timestamp ≤ 300
    · have hgetc := ptGet_cleanup_some st.pending user p now hget hk
      have hh := handleTotal_confirm_expired user chat [c0, "total", "确认"] now ok st p
        (confirm_parts_hc c0) hgetc hstale
      have hst : (execute perms user (some chat) [c0, "total", "确认"] now ok st).state =
          { st with pending := ptDel (cleanupExpired now st.pending) user } := by
        rw [execute_total perms user chat c0 ["确认"] now ok st hperm, hh]
        rfl
      have hnone : ptGet ((execute perms user (some chat)
          [c0, "total", "确认"] now ok st).state).pending user = none := by
        rw [hst]
        exact ptGet_ptDel _ _
      refine ⟨hnone, by rw [hst], by rw [hst], ?_, hfollow _ hnone |>.1, hfollow _ hnone |>.2⟩
      left
      rw [execute_total perms user chat c0 ["确认"] now ok st hperm, hh]
      rfl
    · have hover : now - p.timestamp > 300 := by omega
      have hdrop := cleanup_drops_over300 st.pending user p now hwf hget hover
      have hh := handleTotal_confirm_none user chat [c0, "total", "确认"] now ok st
        (confirm_parts_hc c0) hdrop
      have hst : (execute perms user (some chat) [c0, "total", "确认"] now ok st).state =
          { st with pending := cleanupExpired now st.pending } := by
        rw [execute_total perms user chat c0 ["确认"] now ok st hperm, hh]
        rfl
      have hnone : ptGet ((execute perms user (some chat)
          [c0, "total", "确认"] now ok st).state).pending user = none := by
        rw [hst]
        exact hdrop
      refine ⟨hnone, by rw [hst], by rw [hst], ?_, hfollow _ hnone |>.1, hfollow _ hnone |>.2⟩
      right
      rw [execute_total perms user chat c0 ["确认"] now ok st hperm, hh]
      rfl
  · have hh2 := handler_expired "确认" user chat now ok st p rfl hget hstale
    have hnone2 : ptGet ({ st with pending := ptDel st.pending user } : SysState).pending
        user = none := ptGet_ptDel _ _
    exact ⟨hh2, hfollow _ hnone2 |>.1, hfollow _ hnone2 |>.2⟩

theorem expired_confirm_drops_entry_witness :
    ptGet ((execute ["1"] "1" (some "c") ["/amnesia", "total", "确认"] 100 true
      samplePending).state).pending "1" = none ∧
    (execute ["1"] "1" (some "c") ["/amnesia", "total"] 120 true
      ((execute ["1"] "1" (some "c") ["/amnesia", "total", "确认"] 100 true
        samplePending).state)).replies = [Reply.totalWarning] :=
  have h := expired_confirm_drops_entry ["1"] "1" "c" "c" "/amnesia" "/amnesia" 100 120
    true true samplePending ⟨0, "c"⟩ (by unfold ptWF; decide) (by decide) (by decide)
    (by decide)
  ⟨h.1.1, h.1.2.2.2.2.1⟩

/-- Claim C4 as stated fails for the freestanding-confirm channel: with a
non-expired pending entry made in chat `a`, a `确认` message arriving in
chat `b` is given no reason at all — the listener passes the message
through with no reply and no state change (only the command channel sends
a wrong-chat rejection). -/
theorem wrong_chat_handler_silent :
    confirmHandlerExecute "确认" "1" "b" 5 true ⟨[("1", ⟨0, "a"⟩)], sampleDb, none⟩ =
      (HandlerRet.pass, [], ⟨[("1", ⟨0, "a"⟩)], sampleDb, none⟩) := by
  decide

/-- Claim C4 (amended): a confirmation whose conversation differs from the
one stored in the requester's non-expired pending entry leaves that entry
untouched on both channels; the command channel rejects it with the
wrong-chat reason, while the freestanding-confirm listener declines to
intercept without sending any reason; a later confirmation from the
originating conversation within the timeout window then succeeds on either
channel. -/
theorem wrong_chat_preserves_entry (perms : List String) (user chat c0 c1 : String)
    (now now2 : Int) (ok ok2 : Bool) (st : SysState) (p : PendingEntry)
    (hperm : perms.contains user = true)
    (hget : ptGet st.pending user = some p)
    (hfresh : now - p.timestamp ≤ CONFIRM_TIMEOUT)
    (hne : p.chat_id ≠ chat) :
    (execute perms user (some chat) [c0, "total", "确认"] now ok st =
      .done [Reply.totalWrongChat] ⟨true, "命令执行完成", true⟩
        { st with pending := cleanupExpired now st.pending } ∧
     ptGet (cleanupExpired now st.pending) user = some p) ∧
    confirmHandlerExecute "确认" user chat now ok st = (.pass, [], st) ∧
    (now2 - p.timestamp ≤ CONFIRM_TIMEOUT →
      ((execute perms user (some p.chat_id) [c1, "total", "确认"] now2 ok2
          { st with pending := cleanupExpired now st.pending }).replies =
        (fullEraseCore ok2 now2 st.db st.localStore).replies ∧
       ptGet ((execute perms user (some p.chat_id) [c1, "total", "确认"] now2 ok2
          { st with pending := cleanupExpired now st.pending }).state).pending user = none ∧
       (confirmHandlerExecute "确认" user p.chat_id now2 ok2 st).1 = .confirmed)) := by
  have hfreshNot : ¬ (now - p.timestamp > CONFIRM_TIMEOUT) := not_lt.mpr hfresh
  have hkeep : now - p.timestamp ≤ 300 := by
    have h30 : now - p.timestamp ≤ 30 := hfresh
    omega
  have hgetc := ptGet_cleanup_some st.pending user p now hget hkeep
  have hh := handleTotal_confirm_wrongChat user chat [c0, "total", "确认"] now ok st p
    (confirm_parts_hc c0) hgetc hfreshNot hne
  refine ⟨⟨?_, hgetc⟩, handler_wrongChat "确认" user chat now ok st p rfl hget hfreshNot hne,
    ?_⟩
  · rw [execute_total perms user chat c0 ["确认"] now ok st hperm, hh]
  · intro hf2
    have hf2Not : ¬ (now2 - p.timestamp > CONFIRM_TIMEOUT) := not_lt.mpr hf2
    have hkeep2 : now2 - p.timestamp ≤ 300 := by
      have h30 : now2 - p.timestamp ≤ 30 := hf2
      omega
    have hgetc2 := ptGet_cleanup_some (cleanupExpired now st.pending) user p now2 hgetc hkeep2
    have hh2 := handleTotal_confirm_valid user p.chat_id [c1, "total", "确认"] now2 ok2
      { st with pending := cleanupExpired now st.pending } p (confirm_parts_hc c1) hgetc2
      hf2Not rfl
    refine ⟨?_, ?_, ?_⟩
    · rw [execute_total perms user p.chat_id c1 ["确认"] now2 ok2 _ hperm, hh2]
      rfl
    · rw [execute_total perms user p.chat_id c1 ["确认"] now2 ok2 _ hperm, hh2]
      exact ptGet_ptDel _ _
    · rw [handler_valid "确认" user p.chat_id now2 ok2 st p rfl hget hf2Not rfl]

theorem wrong_chat_preserves_entry_witness :
    execute ["1"] "1" (some "b") ["/amnesia", "total", "确认"] 5 true
        ⟨[("1", ⟨0, "a"⟩)], sampleDb, none⟩ =
      .done [Reply.totalWrongChat] ⟨true, "命令执行完成", true⟩
        ⟨[("1", ⟨0, "a"⟩)], sampleDb, none⟩ :=
  have h := wrong_chat_preserves_entry ["1"] "1" "b" "/amnesia" "/amnesia" 5 10 true true
    ⟨[("1", ⟨0, "a"⟩)], sampleDb, none⟩ ⟨0, "a"⟩ (by decide) (by decide) (by decide)
    (by decide)
  h.1.1

/-- Claim C10: a validated confirmation deletes the pending entry before
erasure runs; when the erasure fails (`ok = false`: the raise is caught,
the generic failure notice is the only reply, the collections and the file
keep their contents), the entry is not restored — afterwards neither
channel finds a pending entry for that requester, so only a brand-new
request-and-confirm cycle can retry. -/
theorem failed_erasure_keeps_entry_consumed (perms : List String)
    (user chat chat2 c0 c1 : String) (now now2 : Int) (ok2 : Bool) (st : SysState)
    (p : PendingEntry)
    (hperm : perms.contains user = true)
    (hget : ptGet st.pending user = some p)
    (hfresh : now - p.timestamp ≤ CONFIRM_TIMEOUT)
    (hchat : p.chat_id = chat) :
    (execute perms user (some chat) [c0, "total", "确认"] now false st =
      .done [Reply.totalFailed] ⟨true, "命令执行完成", true⟩
        ⟨ptDel (cleanupExpired now st.pending) user, st.db, st.localStore⟩ ∧
     (execute perms user (some chat2) [c1, "total", "确认"] now2 ok2
        ⟨ptDel (cleanupExpired now st.pending) user, st.db, st.localStore⟩).replies =
       [Reply.totalNoPending] ∧
     confirmHandlerExecute "确认" user chat2 now2 ok2
        ⟨ptDel (cleanupExpired now st.pending) user, st.db, st.localStore⟩ =
       (.pass, [], ⟨ptDel (cleanupExpired now st.pending) user, st.db, st.localStore⟩)) ∧
    (confirmHandlerExecute "确认" user chat now false st =
      (.confirmed, [Reply.totalFailed], ⟨ptDel st.pending user, st.db, st.localStore⟩) ∧
     (execute perms user (some chat2) [c1, "total", "确认"] now2 ok2
        ⟨ptDel st.pending user, st.db, st.localStore⟩).replies = [Reply.totalNoPending] ∧
     confirmHandlerExecute "确认" user chat2 now2 ok2
        ⟨ptDel st.pending user, st.db, st.localStore⟩ =
       (.pass, [], ⟨ptDel st.pending user, st.db, st.localStore⟩)) := by
  have hfreshNot : ¬ (now - p.timestamp > CONFIRM_TIMEOUT) := not_lt.mpr hfresh
  have hkeep : now - p.timestamp ≤ 300 := by
    have h30 : now - p.timestamp ≤ 30 := hfresh
    omega
  have hgetc := ptGet_cleanup_some st.pending user p now hget hkeep
  have hcore : fullEraseCore false now st.db st.localStore =
      ⟨st.db, st.localStore, [Reply.totalFailed]⟩ := rfl
  have hsecond : ∀ pend2 : PendingTable, ptGet pend2 user = none →
      (execute perms user (some chat2) [c1, "total", "确认"] now2 ok2
        ⟨pend2, st.db, st.localStore⟩).replies = [Reply.totalNoPending] ∧
      confirmHandlerExecute "确认" user chat2 now2 ok2 ⟨pend2, st.db, st.localStore⟩ =
        (.pass, [], ⟨pend2, st.db, st.localStore⟩) := by
    intro pend2 hn
    constructor
    · rw [execute_total perms user chat2 c1 ["确认"] now2 ok2 _ hperm,
        handleTotal_confirm_none user chat2 [c1, "total", "确认"] now2 ok2 _
          (confirm_parts_hc c1) (ptGet_cleanup_none _ _ now2 hn)]
      rfl
    · exact handler_none "确认" user chat2 now2 ok2 _ rfl hn
  constructor
  · have hh := handleTotal_confirm_valid user chat [c0, "total", "确认"] now false st p
      (confirm_parts_hc c0) hgetc hfreshNot hchat
    rw [hcore] at hh
    refine ⟨?_, (hsecond _ (ptGet_ptDel _ _)).1, (hsecond _ (ptGet_ptDel _ _)).2⟩
    rw [execute_total perms user chat c0 ["确认"] now false st hperm, hh]
  · have hv := handler_valid "确认" user chat now false st p rfl hget hfreshNot hchat
    rw [hcore] at hv
    exact ⟨hv, (hsecond _ (ptGet_ptDel _ _)).1, (hsecond _ (ptGet_ptDel _ _)).2⟩

theorem failed_erasure_keeps_entry_consumed_witness :
    execute ["1"] "1" (some "c") ["/amnesia", "total", "确认"] 10 false samplePending =
      .done [Reply.totalFailed] ⟨true, "命令执行完成", true⟩ ⟨[], sampleDb, none⟩ ∧
    (execute ["1"] "1" (some "c") ["/amnesia", "total", "确认"] 20 true
      ⟨[], sampleDb, none⟩).replies = [Reply.totalNoPending] :=
  have h := failed_erasure_keeps_entry_consumed ["1"] "1" "c" "c" "/amnesia" "/amnesia"
    10 20 true samplePending ⟨0, "c"⟩ (by decide) (by decide) (by decide) (by decide)
  ⟨h.1.1, h.1.2.1⟩

end Amnesia
